import Mathlib

/-!
Shallow embedding of the ARM-to-SSA JIT translator front-end
(`src/core/arm/jit/translate.cpp` and `src/core/arm/jit/ir.h`).

Modelling conventions:
* `u32` values are `Nat` with explicit `% 4294967296` wherever the C++
  arithmetic can wrap.
* An SSA node's identity (`std::shared_ptr<MicroValue>`) is its index in the
  block's `instructions` list; each builder call appends a fresh node, so a
  fresh index is a fresh node.
* `std::array<..., 15>::operator[]` is unchecked in C++; `SetReg` therefore
  returns `Option TState`, with `none` standing for the out-of-bounds access
  that happens when the register index is 15 (PC).
* The translator state bundles the `MicroBuilder ir`, `current`,
  `instructions_translated` and `stop_compilation` members of
  `ArmTranslator`, plus a ghost flag `term_set` that records whether
  `SetTerm` was ever invoked (it changes no behaviour).
* The decoder and guest memory are external collaborators (spec §1, §6);
  they are parameters of the translation (`Env`).
-/

namespace ArmJit

/-- ARM condition codes (`ArmDecoder::Cond`, spec §6: standard 4-bit set). -/
inductive Cond
  | EQ | NE | CS | CC | MI | PL | VS | VC
  | HI | LS | GE | LT | GT | LE | AL | NV
deriving DecidableEq, Repr

/-- Modelled from the spec: `LocationDescriptor` lives in
`core/arm/jit/common.h`, which is not under `src/`. Per spec §3 it is a
(PC, Thumb-mode flag, endian flag, static condition) quadruple; the field
names `arm_pc`, `TFlag`, `EFlag`, `cond` are taken from their uses in
`translate.cpp` (lines 45, 65, 100). -/
structure LocationDescriptor where
  arm_pc : Nat
  TFlag : Bool
  EFlag : Bool
  cond : Cond
deriving DecidableEq, Repr

/-- The operation type of a microinstruction (`MicroOp`, ir.h lines 118-155). -/
inductive MicroOp
  | ConstU32 | GetGPR | SetGPR | PushRSBHint | AluWritePC | LoadWritePC
  | Add | AddWithCarry | Sub | And | Eor | Not
  | LSL | LSR | ASR | ROR | RRX
  | CountLeadingZeros | ClearExclusive | Read32
deriving DecidableEq, Repr

/-- `MicroArmFlags` (ir.h lines 93-105) is a C bitmask enum; we model it as
the underlying `Nat` bitmask: N=1, Z=2, C=4, V=8, Q=16, GE=32. -/
def flagsNone : Nat := 0

/-- The `NZC` aggregate of `MicroArmFlags` (N=1, Z=2, C=4). -/
def flagsNZC : Nat := 7

/-- The `C` flag of `MicroArmFlags`. -/
def flagsC : Nat := 4

/-- The `NZCV` aggregate of `MicroArmFlags` (N=1, Z=2, C=4, V=8). -/
def flagsNZCV : Nat := 15

/-- Bitmask inclusion: `a` is a subset of `b` as `MicroArmFlags` sets. -/
def flagsSubset (a b : Nat) : Prop := a &&& b = a

instance (a b : Nat) : Decidable (flagsSubset a b) := by
  unfold flagsSubset; infer_instance

/-- Modelled from the spec: `GetMicroOpInfo`'s table is defined in ir.cpp,
which is not under `src/`. The default write-flags follow spec §6 and the
opcode comments in ir.h lines 134-145: `Add`/`AddWithCarry`/`Sub` write NZCV,
`And`/`Eor` write NZC, `LSL`/`LSR`/`ASR`/`ROR` write C, all others none. -/
def defaultWriteFlags : MicroOp → Nat
  | .Add | .AddWithCarry | .Sub => flagsNZCV
  | .And | .Eor => flagsNZC
  | .LSL | .LSR | .ASR | .ROR => flagsC
  | _ => flagsNone

/-- An ARM register index (`ArmDecoder::Register`, a 4-bit field; PC = 15). -/
abbrev ArmReg := Fin 16

/-- `ArmReg::PC` (register 15). -/
def pcReg : ArmReg := 15

/-- The SSA node variants of ir.h (`MicroConstU32`, `MicroGetGPR`,
`MicroSetGPR`, `MicroInst`). Operand handles (`std::shared_ptr<MicroValue>`)
are indices into the owning block's `instructions` list. `Inst` carries its
(possibly narrowed) `write_flags` bitmask. -/
inductive MicroValue
  | ConstU32 (value : Nat)
  | GetGPR (reg : ArmReg)
  | SetGPR (reg : ArmReg) (arg : Nat)
  | Inst (op : MicroOp) (args : List Nat) (write_flags : Nat)
deriving DecidableEq, Repr

/-- The terminal instruction of a basic block (`MicroTerm::MicroTerminal`,
ir.h lines 44-86). The order of constructors mirrors the `boost::variant`
alternatives; a default-constructed variant holds its first alternative,
`ReturnToDispatch`. -/
inductive MicroTerminal
  | ReturnToDispatch
  | PopRSBHint
  | Interpret (next : LocationDescriptor)
  | LinkBlock (next : LocationDescriptor)
  | LinkBlockFast (next : LocationDescriptor)
  | If (cond : Cond) (then_ : MicroTerminal) (else_ : MicroTerminal)
deriving DecidableEq, Repr

/-- `MicroBlock` (ir.h lines 285-292): location, body in emission order, and
one terminal. -/
structure MicroBlock where
  location : LocationDescriptor
  instructions : List MicroValue
  terminal : MicroTerminal
deriving DecidableEq, Repr

/-- The state of one `ArmTranslator` run: the builder-owned block, the
`current` location, the `instructions_translated` counter, the
`stop_compilation` flag, and the 15-entry per-GPR latest-value cache
`reg_values` (translate.cpp line 76; entries are SSA node indices).
`term_set` is ghost instrumentation recording whether `SetTerm` has ever
been called; it affects no behaviour. -/
structure TState where
  block : MicroBlock
  current : LocationDescriptor
  instructions_translated : Nat
  stop_compilation : Bool
  reg_values : Fin 15 → Option Nat
  term_set : Bool

/-- Modelled from the spec: the `MicroBuilder` interface
(`core/arm/jit/ir_builder.h`) is not under `src/`. Per spec §4.1 and the
scenario in §8.2, each builder call constructs a node and appends it to the
block body; the node's index is returned as its identity. -/
def emit (v : MicroValue) (s : TState) : TState × Nat :=
  ({ s with block := { s.block with instructions := s.block.instructions ++ [v] } },
   s.block.instructions.length)

/-- Modelled from the spec: `ir.ConstU32(value)` appends a `ConstU32` node. -/
def irConstU32 (value : Nat) (s : TState) : TState × Nat :=
  emit (.ConstU32 value) s

/-- Modelled from the spec: `ir.GetGPR(reg)` appends a `GetGPR` node. -/
def irGetGPR (reg : ArmReg) (s : TState) : TState × Nat :=
  emit (.GetGPR reg) s

/-- Modelled from the spec: `ir.Inst(op, a, b, flags)` appends an `Inst`
node; per spec §4.1 the caller-supplied flags narrow the default
write-flags, so the node stores exactly the supplied flags. -/
def irInst (op : MicroOp) (args : List Nat) (write_flags : Nat) (s : TState) : TState × Nat :=
  emit (.Inst op args write_flags) s

/-- Modelled from the spec: `ir.SetTerm(t)` assigns the block's terminal
(spec §4.2: a block has exactly one terminator, set once). Also sets the
ghost `term_set` flag. -/
def SetTerm (t : MicroTerminal) (s : TState) : TState :=
  { s with block := { s.block with terminal := t }, term_set := true }

/-- `ArmTranslator::GetReg` (translate.cpp lines 77-85): a read of PC returns
a freshly constructed `ConstU32(current.arm_pc + 8)` and never touches the
cache; otherwise the cache entry is emitted on first read and returned
thereafter. The `u32` addition `current.arm_pc + 8` wraps. -/
def GetReg (reg : ArmReg) (s : TState) : TState × Nat :=
  if h : reg = pcReg then
    irConstU32 ((s.current.arm_pc + 8) % 4294967296) s
  else
    let idx : Fin 15 := ⟨reg.val, by
      have h16 := reg.isLt
      have hne : reg.val ≠ 15 := fun hv => h (Fin.ext (by simpa [pcReg] using hv))
      omega⟩
    match s.reg_values idx with
    | none =>
      let es := irGetGPR reg s
      ({ es.1 with reg_values := Function.update es.1.reg_values idx (some es.2) }, es.2)
    | some v => (s, v)

/-- `ArmTranslator::SetReg` (translate.cpp lines 86-89): stores `value` into
`reg_values[reg]` with no bounds check. `reg_values` has 15 entries, so
`reg = 15` (PC) indexes past the end of the `std::array`; that undefined
behaviour is modelled as `none`. -/
def SetReg (reg : ArmReg) (value : Nat) (s : TState) : Option TState :=
  if h : reg.val < 15 then
    some { s with reg_values := Function.update s.reg_values ⟨reg.val, h⟩ (some value) }
  else
    none

/-- `ArmTranslator::FallbackToInterpreter` (translate.cpp lines 91-94). -/
def FallbackToInterpreter (s : TState) : TState :=
  { SetTerm (.Interpret s.current) s with stop_compilation := true }

/-- `ArmTranslator::ConditionPassed` (translate.cpp lines 96-103): returns
true when `cond` equals the block's static condition; otherwise emits
`LinkBlock({current.arm_pc, current.TFlag, current.EFlag, cond})`, sets the
stop flag and returns false. -/
def ConditionPassed (cond : Cond) (s : TState) : TState × Bool :=
  if cond = s.current.cond then
    (s, true)
  else
    let s1 := SetTerm (.LinkBlock ⟨s.current.arm_pc, s.current.TFlag, s.current.EFlag, cond⟩) s
    ({ s1 with stop_compilation := true }, false)

/-- Modelled from the spec: `ALUWritePC` is called by `ADD_imm`
(translate.cpp line 417) but defined outside `src/`. Per spec §4.3 ("Writes
to PC") the handler emits the `AluWritePC` micro-op and terminates the
block; we emit the node and set the stop flag. -/
def ALUWritePC (value : Nat) (s : TState) : TState :=
  { (irInst .AluWritePC [value] flagsNone s).1 with stop_compilation := true }

/-- Modelled from the spec: `ArmExpandImm` is called by `ADD_imm`
(translate.cpp line 406) but defined outside `src/`. It is the standard
ARMv6 modified-immediate expansion: `imm8` rotated right by `2 * rotate`
within 32 bits. No claim depends on its value. -/
def ArmExpandImm (imm8 : Nat) (rotate : Nat) : Nat :=
  let r := (2 * rotate) % 32
  ((imm8 >>> r) ||| (imm8 <<< (32 - r))) % 4294967296

/-- `ArmTranslator::ADD_imm` (translate.cpp lines 404-424). Note that
`current.arm_pc += 4` runs on every path, including a failed condition. -/
def ADD_imm (cond : Cond) (S : Bool) (n d : ArmReg) (rotate : Nat) (imm8 : Nat)
    (s : TState) : Option TState :=
  let expanded_imm := ArmExpandImm imm8 rotate
  let set_flags := if S then flagsNZCV else flagsNone
  let cp := ConditionPassed cond s
  let executed : Option TState :=
    if cp.2 then
      let g := GetReg n cp.1
      let c := irConstU32 expanded_imm g.1
      let r := irInst .Add [g.2, c.2] set_flags c.1
      if d = pcReg then
        some (ALUWritePC r.2 r.1)
      else
        SetReg d r.2 r.1
    else
      some cp.1
  executed.map fun s1 =>
    { s1 with current := { s1.current with arm_pc := (s1.current.arm_pc + 4) % 4294967296 } }

/-- `ArmTranslator::B` (translate.cpp lines 374-382): the condition is not
handled ("TODO: Handle cond, dude.") and the raw `imm24` is added to
`current.arm_pc` without sign extension or shifting ("TODO: Sign extend
this."); the terminal becomes `LinkBlock(next)` and the stop flag is set. -/
def B (cond : Cond) (imm24 : Nat) (s : TState) : TState :=
  let next := { s.current with arm_pc := (s.current.arm_pc + imm24) % 4294967296 }
  { SetTerm (.LinkBlock next) s with stop_compilation := true }

/-- The decoded guest instructions the translator distinguishes. Every
visitor callback of `ArmTranslator` other than `B` and `ADD_imm` has the
body `{ FallbackToInterpreter(); }` (translate.cpp lines 384-664); they are
all represented by `Fallback`. -/
inductive DecodedInst
  | B (cond : Cond) (imm24 : Nat)
  | ADD_imm (cond : Cond) (S : Bool) (n d : ArmReg) (rotate : Nat) (imm8 : Nat)
  | Fallback
deriving DecidableEq, Repr

/-- Modelled from the spec: the external collaborators of spec §6 — guest
memory (`Memory::Read32`) and the decoder (`ArmDecoder::DecodeArm` composed
with `Visit` dispatch), neither of which is under `src/`. `decodeArm`
returns `none` when the decoder has no match for the word. -/
structure Env where
  read32 : Nat → Nat
  decodeArm : Nat → Option DecodedInst

/-- Dispatch of `inst_info->Visit(this, inst)` (translate.cpp line 72) to
the opcode handler. -/
def Visit (inst : DecodedInst) (s : TState) : Option TState :=
  match inst with
  | .B cond imm24 => some (B cond imm24 s)
  | .ADD_imm cond S n d rotate imm8 => ADD_imm cond S n d rotate imm8 s
  | .Fallback => some (FallbackToInterpreter s)

/-- `ArmTranslator::TranslateSingleArmInstruction` (translate.cpp lines
64-74): fetch the word at `current.arm_pc & 0xFFFFFFFC`, fall back to the
interpreter when the decoder has no match, otherwise dispatch. -/
def TranslateSingleArmInstruction (env : Env) (s : TState) : Option TState :=
  let inst := env.read32 (s.current.arm_pc - s.current.arm_pc % 4)
  match env.decodeArm inst with
  | none => some (FallbackToInterpreter s)
  | some info => Visit info s

/-- The `while (true)` loop of `ArmTranslator::Translate` (translate.cpp
lines 39-47): translate one instruction, bump `instructions_translated`,
break if the stop flag is set, break if `(current.arm_pc & 0xFFF) != 0`,
otherwise loop. The loop is given explicit fuel; `translateLoop_fuel` below
shows 2 units always suffice, so the fuel never changes the result. -/
def TranslateLoop (env : Env) : Nat → TState → Option TState
  | 0, _ => none
  | fuel + 1, s =>
    match TranslateSingleArmInstruction env s with
    | none => none
    | some s1 =>
      let s2 := { s1 with instructions_translated := s1.instructions_translated + 1 }
      if s2.stop_compilation then some s2
      else if s2.current.arm_pc % 4096 ≠ 0 then some s2
      else TranslateLoop env fuel s2

/-- The translator state at entry: `MicroBuilder ir(location)` owns a block
whose terminal is the default-constructed `boost::variant`, i.e. its first
alternative `ReturnToDispatch` (ir.h lines 71-78); the cache is empty, the
counters zero, the stop flag clear. `ir.block.location = current`
(translate.cpp line 37) stores the entry location. -/
def initState (loc : LocationDescriptor) : TState :=
  { block := { location := loc, instructions := [], terminal := .ReturnToDispatch }
    current := loc
    instructions_translated := 0
    stop_compilation := false
    reg_values := fun _ => none
    term_set := false }

/-- `ArmJit::Translate` / `ArmTranslator::Translate` (translate.cpp lines
34-55 and 368-371): run the loop from the entry state and return the block.
The writeback loop over `reg_values` (lines 49-51) is commented out in the
source and performs no work; the final `stop_compilation = true` does not
affect the returned block. -/
def Translate (env : Env) (loc : LocationDescriptor) (fuel : Nat) : Option MicroBlock :=
  (TranslateLoop env fuel (initState loc)).map fun s => s.block

/-- The shapes of nodes the handlers can append to a block body: a
`ConstU32`, a `GetGPR` of a non-PC register, an `Add` carrying `NZCV` or no
flags, or a flagless `AluWritePC`. -/
def EmittedShape (v : MicroValue) : Prop :=
  (∃ c, v = .ConstU32 c) ∨
  (∃ r, v = .GetGPR r ∧ r ≠ pcReg) ∨
  (∃ a b f, v = .Inst .Add [a, b] f ∧ (f = flagsNZCV ∨ f = flagsNone)) ∨
  (∃ a, v = .Inst .AluWritePC [a] flagsNone)

/-! ### Concrete fixtures used to evaluate the translator -/

/-- Entry location PC=0x1000, ARM mode, little-endian, static cond AL. -/
def locEntry : LocationDescriptor := ⟨4096, false, false, .AL⟩

/-- Entry location PC=0x1FFC (last word of a 4 KiB page), cond AL. -/
def locPage : LocationDescriptor := ⟨8188, false, false, .AL⟩

/-- Entry location PC=0x1000 with static cond EQ. -/
def locEntryEq : LocationDescriptor := ⟨4096, false, false, .EQ⟩

/-- Guest memory/decoder in which every word decodes to
`ADD r1, r2, #5` (cond AL, S clear). -/
def envAdd5 : Env := ⟨fun _ => 0, fun _ => some (.ADD_imm .AL false 2 1 0 5)⟩

/-- Guest memory/decoder in which every word decodes to `BNE +0`
(cond NE, imm24 = 0). -/
def envBne : Env := ⟨fun _ => 0, fun _ => some (.B .NE 0)⟩

/-- Guest memory/decoder in which every word decodes to `B` with cond AL
and imm24 = 0 (the encoding of `B +8`: target pc + 8). -/
def envBal : Env := ⟨fun _ => 0, fun _ => some (.B .AL 0)⟩

/-- Guest memory/decoder in which no word decodes. -/
def envUndec : Env := ⟨fun _ => 0, fun _ => none⟩

/-- The block produced for a single `ADD r1, r2, #5` at `locEntry`. -/
def blockAdd5 : MicroBlock :=
  { location := locEntry
    instructions := [.GetGPR 2, .ConstU32 5, .Inst .Add [0, 1] flagsNone]
    terminal := .ReturnToDispatch }

/-- The translator state after the `ADD_imm` handler runs once on
`initState locEntry`. -/
def stateAdd5 : TState :=
  { block := blockAdd5
    current := { locEntry with arm_pc := 4100 }
    instructions_translated := 0
    stop_compilation := false
    reg_values :=
      Function.update
        (Function.update (fun _ => (none : Option Nat)) (⟨2, by omega⟩ : Fin 15) (some 0))
        (⟨1, by omega⟩ : Fin 15) (some 2)
    term_set := false }

/-- The final loop state for `envAdd5` from `locEntry`. -/
def stateAdd5Done : TState := { stateAdd5 with instructions_translated := 1 }

/-! ### Basic lemmas about the translator operations -/

theorem SetReg_isSome_iff (reg : ArmReg) (value : Nat) (s : TState) :
    (SetReg reg value s).isSome = true ↔ reg ≠ pcReg := by
  unfold SetReg
  split
  · rename_i h
    simp only [Option.isSome_some, true_iff]
    intro hpc
    subst hpc
    exact absurd h (by decide)
  · rename_i h
    simp only [Option.isSome_none, Bool.false_eq_true, false_iff, ne_eq, not_not]
    have h16 := reg.isLt
    apply Fin.ext
    show reg.val = 15
    omega

theorem ADD_imm_isSome (cond : Cond) (S : Bool) (n d : ArmReg) (rotate imm8 : Nat)
    (s : TState) : (ADD_imm cond S n d rotate imm8 s).isSome = true := by
  unfold ADD_imm
  rw [Option.isSome_map']
  by_cases hc : (ConditionPassed cond s).2 = true
  · by_cases hd : d = pcReg
    · simp [hc, hd]
    · simp only [hc, if_true, hd, if_false]
      exact (SetReg_isSome_iff _ _ _).mpr hd
  · simp [hc]

theorem Visit_isSome (inst : DecodedInst) (s : TState) : (Visit inst s).isSome = true := by
  cases inst with
  | B cond imm24 => simp [Visit]
  | ADD_imm cond S n d rotate imm8 => exact ADD_imm_isSome ..
  | Fallback => simp [Visit]

theorem TSAI_isSome (env : Env) (s : TState) :
    (TranslateSingleArmInstruction env s).isSome = true := by
  cases hdec : env.decodeArm (env.read32 (s.current.arm_pc - s.current.arm_pc % 4)) with
  | none => simp [TranslateSingleArmInstruction, hdec]
  | some info => simp [TranslateSingleArmInstruction, hdec, Visit_isSome]

theorem conditionPassed_true_iff (cond : Cond) (s : TState) :
    (ConditionPassed cond s).2 = true ↔ cond = s.current.cond := by
  unfold ConditionPassed
  split <;> simp_all

theorem conditionPassed_fst_of_true (cond : Cond) (s : TState)
    (h : (ConditionPassed cond s).2 = true) : (ConditionPassed cond s).1 = s := by
  have hcc := (conditionPassed_true_iff cond s).mp h
  simp [ConditionPassed, hcc]

theorem conditionPassed_stop_of_false (cond : Cond) (s : TState)
    (h : (ConditionPassed cond s).2 = false) :
    (ConditionPassed cond s).1.stop_compilation = true := by
  have hcc : ¬ cond = s.current.cond := by
    intro hcc
    simp [ConditionPassed, hcc] at h
  simp [ConditionPassed, hcc, SetTerm]

theorem conditionPassed_body (cond : Cond) (s : TState) :
    (ConditionPassed cond s).1.block.instructions = s.block.instructions := by
  by_cases hcc : cond = s.current.cond <;> simp [ConditionPassed, hcc, SetTerm]

theorem getReg_preserves (r : ArmReg) (s : TState) :
    (GetReg r s).1.current = s.current ∧
    (GetReg r s).1.stop_compilation = s.stop_compilation ∧
    (GetReg r s).1.block.terminal = s.block.terminal ∧
    (GetReg r s).1.term_set = s.term_set ∧
    (GetReg r s).1.instructions_translated = s.instructions_translated := by
  unfold GetReg
  split
  · exact ⟨rfl, rfl, rfl, rfl, rfl⟩
  · dsimp only
    split
    · exact ⟨rfl, rfl, rfl, rfl, rfl⟩
    · exact ⟨rfl, rfl, rfl, rfl, rfl⟩

theorem setReg_preserves (r : ArmReg) (v : Nat) (s s' : TState)
    (h : SetReg r v s = some s') :
    s'.current = s.current ∧
    s'.stop_compilation = s.stop_compilation ∧
    s'.block = s.block ∧
    s'.term_set = s.term_set ∧
    s'.instructions_translated = s.instructions_translated := by
  unfold SetReg at h
  split at h
  · cases h
    exact ⟨rfl, rfl, rfl, rfl, rfl⟩
  · cases h

theorem step_pc (env : Env) (s s' : TState)
    (h : TranslateSingleArmInstruction env s = some s')
    (hs : s'.stop_compilation = false) :
    s'.current.arm_pc = (s.current.arm_pc + 4) % 4294967296 := by
  simp only [TranslateSingleArmInstruction] at h
  cases hdec : env.decodeArm (env.read32 (s.current.arm_pc - s.current.arm_pc % 4)) with
  | none =>
    rw [hdec] at h
    cases h
    simp [FallbackToInterpreter, SetTerm] at hs
  | some info =>
    rw [hdec] at h
    cases info with
    | B cond imm24 =>
      simp only [Visit] at h
      cases h
      simp [B, SetTerm] at hs
    | Fallback =>
      simp only [Visit] at h
      cases h
      simp [FallbackToInterpreter, SetTerm] at hs
    | ADD_imm cond S n d rotate imm8 =>
      simp only [Visit] at h
      unfold ADD_imm at h
      rw [Option.map_eq_some'] at h
      obtain ⟨s1, hex, hs'⟩ := h
      subst hs'
      have hstop1 : s1.stop_compilation = false := hs
      suffices hcur : s1.current.arm_pc = s.current.arm_pc by
        simp [hcur]
      by_cases hc : (ConditionPassed cond s).2 = true
      · rw [if_pos hc, conditionPassed_fst_of_true cond s hc] at hex
        by_cases hd : d = pcReg
        · rw [if_pos hd] at hex
          cases hex
          simp [ALUWritePC] at hstop1
        · rw [if_neg hd] at hex
          have hp := (setReg_preserves _ _ _ _ hex).1
          rw [hp]
          exact congrArg LocationDescriptor.arm_pc (getReg_preserves n s).1
      · rw [if_neg hc] at hex
        cases hex
        rw [conditionPassed_stop_of_false cond s (by simpa using hc)] at hstop1
        cases hstop1

/-! ### The loop terminates: two units of fuel always suffice

After any non-stopping handler, `current.arm_pc` has been bumped by 4
(mod 2^32); if the loop recursed, the previous check guarantees the entry pc
was 4096-aligned, so the bumped pc is congruent to 4 mod 4096 and the next
check must break. Hence at most two iterations ever run. -/

theorem loop_from_aligned (env : Env) (s : TState) (fuel : Nat)
    (ha : s.current.arm_pc % 4096 = 0) :
    TranslateLoop env (fuel + 1) s = TranslateLoop env 1 s := by
  obtain ⟨s1, h1⟩ := Option.isSome_iff_exists.mp (TSAI_isSome env s)
  simp only [TranslateLoop, h1]
  by_cases hstop : s1.stop_compilation = true
  · simp [hstop]
  · have hs1 : s1.stop_compilation = false := by simpa using hstop
    have hpc := step_pc env s s1 h1 hs1
    have hmis : s1.current.arm_pc % 4096 ≠ 0 := by
      rw [hpc]
      omega
    simp [hs1, hmis]

theorem translateLoop_eq (env : Env) (fuel : Nat) (s s1 : TState)
    (h1 : TranslateSingleArmInstruction env s = some s1) :
    TranslateLoop env (fuel + 1) s =
      if s1.stop_compilation = true then
        some { s1 with instructions_translated := s1.instructions_translated + 1 }
      else if s1.current.arm_pc % 4096 ≠ 0 then
        some { s1 with instructions_translated := s1.instructions_translated + 1 }
      else
        TranslateLoop env fuel { s1 with instructions_translated := s1.instructions_translated + 1 } := by
  simp only [TranslateLoop, h1]

theorem translateLoop_fuel (env : Env) (fuel : Nat) (s : TState) (h2 : 2 ≤ fuel) :
    TranslateLoop env fuel s = TranslateLoop env 2 s := by
  obtain ⟨k, rfl⟩ : ∃ k, fuel = k + 2 := ⟨fuel - 2, by omega⟩
  obtain ⟨s1, h1⟩ := Option.isSome_iff_exists.mp (TSAI_isSome env s)
  show TranslateLoop env (k + 1 + 1) s = TranslateLoop env (1 + 1) s
  rw [translateLoop_eq env (k + 1) s s1 h1, translateLoop_eq env 1 s s1 h1]
  by_cases hstop : s1.stop_compilation = true
  · rw [if_pos hstop, if_pos hstop]
  · rw [if_neg hstop, if_neg hstop]
    by_cases halign : s1.current.arm_pc % 4096 = 0
    · have hne : ¬ s1.current.arm_pc % 4096 ≠ 0 := by simpa using halign
      rw [if_neg hne, if_neg hne]
      exact loop_from_aligned env _ k halign
    · rw [if_pos halign, if_pos halign]

theorem loop_one_isSome (env : Env) (s : TState)
    (ha : s.current.arm_pc % 4096 = 0) :
    (TranslateLoop env 1 s).isSome = true := by
  obtain ⟨s1, h1⟩ := Option.isSome_iff_exists.mp (TSAI_isSome env s)
  rw [show (1 : Nat) = 0 + 1 from rfl, translateLoop_eq env 0 s s1 h1]
  by_cases hstop : s1.stop_compilation = true
  · rw [if_pos hstop]
    rfl
  · rw [if_neg hstop]
    have hmis : s1.current.arm_pc % 4096 ≠ 0 := by
      rw [step_pc env s s1 h1 (by simpa using hstop)]
      omega
    rw [if_pos hmis]
    rfl

theorem translateLoop_two_isSome (env : Env) (s : TState) :
    (TranslateLoop env 2 s).isSome = true := by
  obtain ⟨s1, h1⟩ := Option.isSome_iff_exists.mp (TSAI_isSome env s)
  rw [show (2 : Nat) = 1 + 1 from rfl, translateLoop_eq env 1 s s1 h1]
  by_cases hstop : s1.stop_compilation = true
  · rw [if_pos hstop]
    rfl
  · rw [if_neg hstop]
    by_cases halign : s1.current.arm_pc % 4096 = 0
    · have hne : ¬ s1.current.arm_pc % 4096 ≠ 0 := by simpa using halign
      rw [if_neg hne]
      exact loop_one_isSome env _ halign
    · rw [if_pos halign]
      rfl

/-! ### What the translator can emit into a block body

Every node appended during translation is a `ConstU32`, a `GetGPR` of a
non-PC register, an `Add` with the `NZCV` or empty flag set, or an
`AluWritePC` with no flags. This single invariant settles both the
PC-non-caching and the flag-monotonicity claims. -/

theorem getReg_body_mem (r : ArmReg) (s : TState) (v : MicroValue)
    (hv : v ∈ (GetReg r s).1.block.instructions) :
    v ∈ s.block.instructions ∨ EmittedShape v := by
  unfold GetReg at hv
  split at hv
  · simp only [irConstU32, emit, List.mem_append, List.mem_singleton] at hv
    rcases hv with hv | hv
    · exact Or.inl hv
    · exact Or.inr (Or.inl ⟨_, hv⟩)
  · rename_i h
    dsimp only at hv
    split at hv
    · simp only [irGetGPR, emit, List.mem_append, List.mem_singleton] at hv
      rcases hv with hv | hv
      · exact Or.inl hv
      · exact Or.inr (Or.inr (Or.inl ⟨r, hv, h⟩))
    · exact Or.inl hv

theorem step_body_mem (env : Env) (s s' : TState) (v : MicroValue)
    (h : TranslateSingleArmInstruction env s = some s')
    (hv : v ∈ s'.block.instructions) :
    v ∈ s.block.instructions ∨ EmittedShape v := by
  simp only [TranslateSingleArmInstruction] at h
  cases hdec : env.decodeArm (env.read32 (s.current.arm_pc - s.current.arm_pc % 4)) with
  | none =>
    rw [hdec] at h
    cases h
    exact Or.inl hv
  | some info =>
    rw [hdec] at h
    cases info with
    | B cond imm24 =>
      simp only [Visit] at h
      cases h
      exact Or.inl hv
    | Fallback =>
      simp only [Visit] at h
      cases h
      exact Or.inl hv
    | ADD_imm cond S n d rotate imm8 =>
      simp only [Visit] at h
      unfold ADD_imm at h
      rw [Option.map_eq_some'] at h
      obtain ⟨s1, hex, hs'⟩ := h
      subst hs'
      have hv1 : v ∈ s1.block.instructions := hv
      by_cases hc : (ConditionPassed cond s).2 = true
      · rw [if_pos hc, conditionPassed_fst_of_true cond s hc] at hex
        by_cases hd : d = pcReg
        · rw [if_pos hd] at hex
          cases hex
          have hv2 := hv1
          simp only [ALUWritePC, irInst, irConstU32, emit, List.mem_append,
            List.mem_singleton] at hv2
          rcases hv2 with ((hv2 | hv2) | hv2) | hv2
          · exact getReg_body_mem n s v hv2
          · exact Or.inr (Or.inl ⟨_, hv2⟩)
          · refine Or.inr (Or.inr (Or.inr (Or.inl ⟨_, _, _, hv2, ?_⟩)))
            cases S with
            | true => simp
            | false => simp
          · exact Or.inr (Or.inr (Or.inr (Or.inr ⟨_, hv2⟩)))
        · rw [if_neg hd] at hex
          have hb := (setReg_preserves _ _ _ _ hex).2.2.1
          rw [hb] at hv1
          simp only [irInst, irConstU32, emit, List.mem_append, List.mem_singleton] at hv1
          rcases hv1 with (hv1 | hv1) | hv1
          · exact getReg_body_mem n s v hv1
          · exact Or.inr (Or.inl ⟨_, hv1⟩)
          · refine Or.inr (Or.inr (Or.inr (Or.inl ⟨_, _, _, hv1, ?_⟩)))
            cases S with
            | true => simp
            | false => simp
      · rw [if_neg hc] at hex
        cases hex
        rw [conditionPassed_body cond s] at hv1
        exact Or.inl hv1

theorem loop_body_mem (env : Env) :
    ∀ (fuel : Nat) (s s' : TState) (v : MicroValue),
      TranslateLoop env fuel s = some s' → v ∈ s'.block.instructions →
      v ∈ s.block.instructions ∨ EmittedShape v := by
  intro fuel
  induction fuel with
  | zero => intro s s' v h; cases h
  | succ fuel ih =>
    intro s s' v h hv
    obtain ⟨s1, h1⟩ := Option.isSome_iff_exists.mp (TSAI_isSome env s)
    rw [translateLoop_eq env fuel s s1 h1] at h
    by_cases hstop : s1.stop_compilation = true
    · rw [if_pos hstop] at h
      cases h
      exact step_body_mem env s s1 v h1 hv
    · rw [if_neg hstop] at h
      by_cases hmis : s1.current.arm_pc % 4096 ≠ 0
      · rw [if_pos hmis] at h
        cases h
        exact step_body_mem env s s1 v h1 hv
      · rw [if_neg hmis] at h
        rcases ih _ s' v h hv with hmem | hsh
        · exact step_body_mem env s s1 v h1 hmem
        · exact Or.inr hsh

theorem translate_body_shape (env : Env) (loc : LocationDescriptor) (fuel : Nat)
    (b : MicroBlock) (h : Translate env loc fuel = some b)
    (v : MicroValue) (hv : v ∈ b.instructions) : EmittedShape v := by
  simp only [Translate, Option.map_eq_some'] at h
  obtain ⟨s', hloop, hb⟩ := h
  subst hb
  rcases loop_body_mem env fuel (initState loc) s' v hloop hv with hmem | hsh
  · cases hmem
  · exact hsh

/-! ### The ghost terminal flag: the terminal changes only through SetTerm -/

theorem conditionPassed_term_of_false (cond : Cond) (s : TState)
    (h : (ConditionPassed cond s).2 = false) :
    (ConditionPassed cond s).1.term_set = true := by
  have hcc : ¬ cond = s.current.cond := by
    intro hcc
    simp [ConditionPassed, hcc] at h
  simp [ConditionPassed, hcc, SetTerm]

theorem step_term (env : Env) (s s' : TState)
    (h : TranslateSingleArmInstruction env s = some s')
    (ht : s'.term_set = false) :
    s'.block.terminal = s.block.terminal ∧ s.term_set = false := by
  simp only [TranslateSingleArmInstruction] at h
  cases hdec : env.decodeArm (env.read32 (s.current.arm_pc - s.current.arm_pc % 4)) with
  | none =>
    rw [hdec] at h
    cases h
    cases ht
  | some info =>
    rw [hdec] at h
    cases info with
    | B cond imm24 =>
      simp only [Visit] at h
      cases h
      cases ht
    | Fallback =>
      simp only [Visit] at h
      cases h
      cases ht
    | ADD_imm cond S n d rotate imm8 =>
      simp only [Visit] at h
      unfold ADD_imm at h
      rw [Option.map_eq_some'] at h
      obtain ⟨s1, hex, hs'⟩ := h
      subst hs'
      have ht1 : s1.term_set = false := ht
      by_cases hc : (ConditionPassed cond s).2 = true
      · rw [if_pos hc, conditionPassed_fst_of_true cond s hc] at hex
        by_cases hd : d = pcReg
        · rw [if_pos hd] at hex
          cases hex
          have hterm : ((GetReg n s).1).block.terminal = s.block.terminal :=
            (getReg_preserves n s).2.2.1
          have htset : ((GetReg n s).1).term_set = s.term_set :=
            (getReg_preserves n s).2.2.2.1
          exact ⟨hterm, by rw [← htset]; exact ht1⟩
        · rw [if_neg hd] at hex
          have hp := setReg_preserves _ _ _ _ hex
          have hterm : s1.block.terminal = s.block.terminal := by
            rw [hp.2.2.1]
            exact (getReg_preserves n s).2.2.1
          have htset : s1.term_set = s.term_set := by
            rw [hp.2.2.2.1]
            exact (getReg_preserves n s).2.2.2.1
          exact ⟨hterm, by rw [← htset]; exact ht1⟩
      · rw [if_neg hc] at hex
        cases hex
        rw [conditionPassed_term_of_false cond s (by simpa using hc)] at ht1
        cases ht1

theorem loop_term_monotone (env : Env) :
    ∀ (fuel : Nat) (t t' : TState),
      TranslateLoop env fuel t = some t' → t.term_set = true → t'.term_set = true := by
  intro fuel
  induction fuel with
  | zero => intro t t' hh; cases hh
  | succ fuel ihf =>
    intro t t' hh htt
    obtain ⟨t1, ht1⟩ := Option.isSome_iff_exists.mp (TSAI_isSome env t)
    rw [translateLoop_eq env fuel t t1 ht1] at hh
    have ht1set : t1.term_set = true := by
      by_contra hx
      have := (step_term env t t1 ht1 (by simpa using hx)).2
      rw [htt] at this
      cases this
    by_cases hst : t1.stop_compilation = true
    · rw [if_pos hst] at hh
      cases hh
      exact ht1set
    · rw [if_neg hst] at hh
      by_cases hms : t1.current.arm_pc % 4096 ≠ 0
      · rw [if_pos hms] at hh
        cases hh
        exact ht1set
      · rw [if_neg hms] at hh
        exact ihf _ _ hh ht1set

theorem loop_term (env : Env) :
    ∀ (fuel : Nat) (s s' : TState),
      TranslateLoop env fuel s = some s' → s'.term_set = false →
      s'.block.terminal = s.block.terminal := by
  intro fuel
  induction fuel with
  | zero => intro s s' h; cases h
  | succ fuel ih =>
    intro s s' h ht
    obtain ⟨s1, h1⟩ := Option.isSome_iff_exists.mp (TSAI_isSome env s)
    rw [translateLoop_eq env fuel s s1 h1] at h
    by_cases hstop : s1.stop_compilation = true
    · rw [if_pos hstop] at h
      cases h
      exact (step_term env s s1 h1 ht).1
    · rw [if_neg hstop] at h
      by_cases hmis : s1.current.arm_pc % 4096 ≠ 0
      · rw [if_pos hmis] at h
        cases h
        exact (step_term env s s1 h1 ht).1
      · rw [if_neg hmis] at h
        have hs1t : s1.term_set = false := by
          by_contra hx
          have : s'.term_set = true :=
            loop_term_monotone env fuel _ s' h (by simpa using hx)
          rw [ht] at this
          cases this
        have hrec := ih _ s' h ht
        rw [hrec]
        exact (step_term env s s1 h1 hs1t).1

end ArmJit

namespace ArmJit

/-! ## The claims -/

/-- C1: the claim states that when the bumped `current_pc` satisfies
`current_pc & 0xFFF == 0` the loop stops with terminator
`LinkBlock(current_pc)`, and that it continues when `current_pc & 0xFFF != 0`
without the stop flag. The code does the opposite: translating an ADD stream
from PC=0x1FFC crosses into 0x2000 and keeps going (5 nodes, two
instructions translated) and ends with `ReturnToDispatch`, never
`LinkBlock`; from PC=0x1000 the loop breaks after a single instruction
(3 nodes) although the stop flag was never set. -/
theorem translate_page_boundary_inverted :
    (Translate envAdd5 locPage 2).map (fun b => (b.instructions.length, b.terminal)) =
      some (5, MicroTerminal.ReturnToDispatch) ∧
    (Translate envAdd5 locEntry 2).map (fun b => (b.instructions.length, b.terminal)) =
      some (3, MicroTerminal.ReturnToDispatch) :=
  ⟨rfl, rfl⟩

/-- C2: the claim requires a `SetGPR(r, v)` writeback for every dirtied GPR.
The writeback loop is commented out in the source, so translating
`ADD r1, r2, #5` yields a body with no `SetGPR` node at all. -/
theorem translate_writeback_missing :
    Translate envAdd5 locEntry 2 = some blockAdd5 ∧
    blockAdd5.instructions.countP
      (fun v => match v with | .SetGPR _ _ => true | _ => false) = 0 :=
  ⟨rfl, rfl⟩

/-- C3: the claim extends the condition short-circuit to every instruction
including `B`. The `B` handler never calls `ConditionPassed` ("TODO: Handle
cond, dude."): a `BNE` inside a cond=EQ block is translated anyway, and the
emitted `LinkBlock` keeps cond EQ instead of the claimed
`LinkBlock(location with cond := NE)`. -/
theorem translate_B_ignores_condition :
    Translate envBne locEntryEq 2 =
      some { location := locEntryEq, instructions := [],
             terminal := .LinkBlock { arm_pc := 4096, TFlag := false, EFlag := false,
                                      cond := .EQ } } :=
  rfl

/-- C4: translation always returns a `MicroBlock` (given the two units of
fuel that `translateLoop_fuel` shows always suffice), and when the decoder
has no match for the very first fetched word the returned block has an empty
body and terminator `Interpret` of the entry location. -/
theorem translate_never_fails (env : Env) (loc : LocationDescriptor) (fuel : Nat)
    (hf : 2 ≤ fuel) :
    (Translate env loc fuel).isSome = true ∧
    (env.decodeArm (env.read32 (loc.arm_pc - loc.arm_pc % 4)) = none →
      Translate env loc fuel =
        some { location := loc, instructions := [], terminal := .Interpret loc }) := by
  constructor
  · unfold Translate
    rw [translateLoop_fuel env fuel _ hf, Option.isSome_map']
    exact translateLoop_two_isSome env (initState loc)
  · intro hdec
    unfold Translate
    rw [translateLoop_fuel env fuel _ hf]
    have h1 : TranslateSingleArmInstruction env (initState loc) =
        some (FallbackToInterpreter (initState loc)) := by
      simp [TranslateSingleArmInstruction, initState, hdec]
    rw [show (2 : Nat) = 1 + 1 from rfl, translateLoop_eq env 1 _ _ h1,
      if_pos (show (FallbackToInterpreter (initState loc)).stop_compilation = true from rfl)]
    rfl

/-- Witness for C4 at a concrete input: an undecodable word at PC=0x1000. -/
theorem translate_never_fails_witness :
    (Translate envUndec locEntry 2).isSome = true ∧
    Translate envUndec locEntry 2 =
      some { location := locEntry, instructions := [], terminal := .Interpret locEntry } := by
  have h := translate_never_fails envUndec locEntry 2 (by decide)
  exact ⟨h.1, h.2 rfl⟩

/-- C5: the claim gives the architectural branch target
`pc + 8 + (SignExtend(imm24) << 2)`, so `B +8` (imm24 = 0) at PC=0x1000
should link to 0x1008. The handler adds the raw `imm24` to the pc ("TODO:
Sign extend this."), producing `LinkBlock` at 0x1000. The body is empty, as
the claim says. -/
theorem translate_B_raw_offset :
    Translate envBal locEntry 2 =
      some { location := locEntry, instructions := [],
             terminal := .LinkBlock { arm_pc := 4096, TFlag := false, EFlag := false,
                                      cond := .AL } } :=
  rfl

/-- C6: a read of PC returns a freshly appended `ConstU32(current_pc + 8)`
(its index is the old body length, so it is a new node), leaving the
register cache untouched, and no `GetGPR` node for PC ever appears in a
translated block. -/
theorem getReg_pc_never_cached :
    (∀ s : TState,
      GetReg pcReg s =
        ({ s with block := { s.block with
             instructions :=
               s.block.instructions ++ [.ConstU32 ((s.current.arm_pc + 8) % 4294967296)] } },
         s.block.instructions.length)) ∧
    (∀ env loc fuel b, Translate env loc fuel = some b →
      ∀ r, MicroValue.GetGPR r ∈ b.instructions → r ≠ pcReg) := by
  constructor
  · intro s
    rfl
  · intro env loc fuel b h r hr
    rcases translate_body_shape env loc fuel b h _ hr with
      ⟨c, hc⟩ | ⟨r', hr', hne⟩ | ⟨a, b', f, hf, _⟩ | ⟨a, ha⟩
    · simp at hc
    · injection hr' with hrr
      subst hrr
      exact hne
    · simp at hf
    · simp at ha

/-- Witness for C6: reading PC at the entry state of PC=0x1000 appends
`ConstU32 0x1008` at index 0, and register 2 (whose `GetGPR` is in
`blockAdd5`) is not PC. -/
theorem getReg_pc_never_cached_witness :
    GetReg pcReg (initState locEntry) =
      ({ initState locEntry with
           block := { (initState locEntry).block with instructions := [.ConstU32 4104] } },
       0) ∧
    (2 : ArmReg) ≠ pcReg := by
  constructor
  · exact getReg_pc_never_cached.1 (initState locEntry)
  · exact getReg_pc_never_cached.2 envAdd5 locEntry 2 blockAdd5 rfl 2 (by decide)

/-- C7: for a non-PC register, the first `get_reg` emits one `GetGPR r` node
and caches its index; while the cache holds a value, `get_reg` returns it
with the state unchanged (so repeated reads return the same SSA node); and
after `set_reg(r, v)` a `get_reg(r)` returns `v`. -/
theorem getReg_caching (r : ArmReg) (hr15 : r.val < 15) (hne : r ≠ pcReg) (s : TState) :
    (s.reg_values ⟨r.val, hr15⟩ = none →
      GetReg r s =
        ({ s with
             block := { s.block with instructions := s.block.instructions ++ [.GetGPR r] },
             reg_values := Function.update s.reg_values ⟨r.val, hr15⟩
               (some s.block.instructions.length) },
         s.block.instructions.length)) ∧
    (∀ v, s.reg_values ⟨r.val, hr15⟩ = some v → GetReg r s = (s, v)) ∧
    (∀ v s', SetReg r v s = some s' → GetReg r s' = (s', v)) := by
  refine ⟨?_, ?_, ?_⟩
  · intro hnone
    unfold GetReg
    rw [dif_neg hne]
    dsimp only
    simp only [hnone]
    rfl
  · intro v hsome
    unfold GetReg
    rw [dif_neg hne]
    dsimp only
    simp only [hsome]
  · intro v s' hset
    unfold SetReg at hset
    rw [dif_pos hr15] at hset
    injection hset with hset'
    subst hset'
    unfold GetReg
    rw [dif_neg hne]
    dsimp only
    rw [Function.update_same]

/-- Witness for C7: a first read of r0 at the entry state emits `GetGPR 0`
at index 0 and caches it. -/
theorem getReg_caching_witness :
    GetReg 0 (initState locEntry) =
      ({ initState locEntry with
           block := { (initState locEntry).block with instructions := [.GetGPR 0] },
           reg_values := Function.update (initState locEntry).reg_values
             ⟨0, by omega⟩ (some 0) },
       0) :=
  (getReg_caching 0 (by decide) (by decide) (initState locEntry)).1 rfl

/-- C8: every `Inst` node in a translated block carries write-flags included
in the opcode's default write-flags, and `ADD_imm` (under a passing
condition) emits its `Add` node with exactly `NZCV` when S is set and `None`
when S is clear — both subsets of `Add`'s default `NZCV`. -/
theorem translate_flag_monotonicity :
    (∀ env loc fuel b, Translate env loc fuel = some b →
      ∀ op args wf, MicroValue.Inst op args wf ∈ b.instructions →
        flagsSubset wf (defaultWriteFlags op)) ∧
    (∀ (cond : Cond) (S : Bool) (n d : ArmReg) (rotate imm8 : Nat) (s s' : TState),
      cond = s.current.cond → ADD_imm cond S n d rotate imm8 s = some s' →
      MicroValue.Inst .Add
          [(GetReg n s).2, (irConstU32 (ArmExpandImm imm8 rotate) (GetReg n s).1).2]
          (if S then flagsNZCV else flagsNone) ∈ s'.block.instructions) ∧
    flagsSubset flagsNZCV (defaultWriteFlags .Add) ∧
    flagsSubset flagsNone (defaultWriteFlags .Add) := by
  refine ⟨?_, ?_, by decide, by decide⟩
  · intro env loc fuel b h op args wf hmem
    rcases translate_body_shape env loc fuel b h _ hmem with
      ⟨c, hc⟩ | ⟨r', hr', hne⟩ | ⟨a, b', f, hf, hfl⟩ | ⟨a, ha⟩
    · simp at hc
    · simp at hr'
    · injection hf with hop hargs hwf
      subst hop
      subst hwf
      rcases hfl with hfl | hfl <;> subst hfl <;> decide
    · injection ha with hop hargs hwf
      subst hop
      subst hwf
      decide
  · intro cond S n d rotate imm8 s s' hcond h
    have hc : (ConditionPassed cond s).2 = true := (conditionPassed_true_iff cond s).mpr hcond
    unfold ADD_imm at h
    rw [Option.map_eq_some'] at h
    obtain ⟨s1, hex, hs'⟩ := h
    subst hs'
    show _ ∈ s1.block.instructions
    rw [if_pos hc, conditionPassed_fst_of_true cond s hc] at hex
    by_cases hd : d = pcReg
    · rw [if_pos hd] at hex
      cases hex
      simp [ALUWritePC, irInst, irConstU32, emit]
    · rw [if_neg hd] at hex
      rw [(setReg_preserves _ _ _ _ hex).2.2.1]
      simp [irInst, irConstU32, emit]

/-- Witness for C8: the `Add` node of `ADD r1, r2, #5` (S clear) carries no
flags, a subset of `Add`'s default `NZCV`. -/
theorem translate_flag_monotonicity_witness :
    flagsSubset flagsNone (defaultWriteFlags .Add) ∧
    MicroValue.Inst .Add [0, 1] flagsNone ∈ stateAdd5.block.instructions := by
  refine ⟨?_, ?_⟩
  · exact translate_flag_monotonicity.1 envAdd5 locEntry 2 blockAdd5 rfl .Add [0, 1]
      flagsNone (by decide)
  · exact translate_flag_monotonicity.2.1 .AL false 2 1 0 5 (initState locEntry)
      stateAdd5 rfl rfl

/-- C9: when the loop finishes without any call to `SetTerm` (ghost flag
still false), the returned `MicroBlock` carries the default-constructed
first variant of the terminal sum, `ReturnToDispatch`. -/
theorem translate_default_terminal (env : Env) (loc : LocationDescriptor) (fuel : Nat)
    (s' : TState) (h : TranslateLoop env fuel (initState loc) = some s')
    (ht : s'.term_set = false) :
    s'.block.terminal = .ReturnToDispatch ∧ Translate env loc fuel = some s'.block := by
  constructor
  · rw [loop_term env fuel (initState loc) s' h ht]
    rfl
  · unfold Translate
    rw [h]
    rfl

/-- Witness for C9: a single ADD at PC=0x1000 never sets a terminator, and
the returned block's terminal is `ReturnToDispatch`. -/
theorem translate_default_terminal_witness :
    stateAdd5Done.block.terminal = .ReturnToDispatch ∧
    Translate envAdd5 locEntry 2 = some stateAdd5Done.block :=
  translate_default_terminal envAdd5 locEntry 2 stateAdd5Done rfl rfl

/-- C10: `SetReg` stays inside the 15-entry cache array exactly when the
register is not PC (register 15 indexes past the end), and `ADD_imm` never
performs that out-of-bounds store because it branches to the `ALUWritePC`
path whenever the destination is PC. -/
theorem setReg_pc_out_of_bounds :
    (∀ (r : ArmReg) (v : Nat) (s : TState), (SetReg r v s).isSome = true ↔ r ≠ pcReg) ∧
    (∀ (cond : Cond) (S : Bool) (n d : ArmReg) (rotate imm8 : Nat) (s : TState),
      (ADD_imm cond S n d rotate imm8 s).isSome = true) :=
  ⟨SetReg_isSome_iff, ADD_imm_isSome⟩

end ArmJit
